import Mathlib

/-!
# Verification of the `tris.py` falling-block game engine

This file gives a shallow embedding of the core game logic of the
repository's single source file `tris.py` (a Discord Tetris-like bot):

* the board/collision primitives `check_collision`, `merge_piece`,
  `clear_lines` (board width 7, height 12, cells `Bool` for Python's 0/1);
* the piece library `PIECES`, the generic rotation `rotate_piece`
  (Python's `zip(*piece[::-1])`) and the special center-pivot rotation
  `rotate_i_piece_center`;
* the `TetrisGame` session operations `rotate`, `hard_drop`, `land_piece`
  (randomness — the next piece's shape and its 0–3 spawn rotations — is
  passed in as explicit parameters; wall-clock fields are omitted);
* the score store `save_score` / `get_highscores` (timestamps modelled
  as naturals, `datetime.now()` passed in as a parameter).

Integer anchors are `Int` (Python ints may go negative), scores and
counters are `Int`.  Theorems at the end settle the specification claims.
-/

namespace Tris

/-- Read board cell `board[bi][bj]` (out-of-range reads default to `false`;
the code only reads inside the 12×7 grid, see `check_collision_no_oob_read`). -/
def boardCell (board : List (List Bool)) (bi bj : Int) : Bool :=
  (board.getD bi.toNat []).getD bj.toNat false

/-- `check_collision(board, piece, px, py)` from `tris.py`: for each occupied
piece cell, board coords are `bx = px + x`, `by = py + y`; collision when
`bx < 0 or bx >= WIDTH or by >= HEIGHT` (WIDTH = 7, HEIGHT = 12), or when
`by >= 0` and the board cell is already filled. -/
def check_collision (board piece : List (List Bool)) (px py : Int) : Bool :=
  (List.range piece.length).any fun y =>
    (List.range (piece.getD y []).length).any fun x =>
      (piece.getD y []).getD x false &&
        (decide (px + (x : Int) < 0) || decide (7 ≤ px + (x : Int)) ||
         decide (12 ≤ py + (y : Int)) ||
         (decide (0 ≤ py + (y : Int)) && boardCell board (py + (y : Int)) (px + (x : Int))))

/-- `empty_board()`: a 12-row board of 7 empty cells per row. -/
def empty_board : List (List Bool) :=
  List.replicate 12 (List.replicate 7 false)

/-- `rotate_piece(piece) = [list(row) for row in zip(*piece[::-1])]`:
the columns (truncated at the shortest row, as Python's `zip` does) of the
row-reversed matrix. -/
def rotate_piece (piece : List (List Bool)) : List (List Bool) :=
  match (piece.map List.length).min? with
  | none => []
  | some w => (List.range w).map fun i => piece.reverse.map fun row => row.getD i false

/-- `rotate_i_piece_center(piece)`: a 1×3 matrix becomes the vertical bar,
a 3×1 matrix becomes the horizontal bar, anything else is returned unchanged. -/
def rotate_i_piece_center (piece : List (List Bool)) : List (List Bool) :=
  if piece.length = 1 ∧ (piece.headD []).length = 3 then [[true], [true], [true]]
  else if piece.length = 3 ∧ (piece.headD []).length = 1 then [[true, true, true]]
  else piece

/-- Set board cell `(bi, bj)` to filled (helper for `merge_piece`). -/
def set_cell (board : List (List Bool)) (bi bj : Nat) : List (List Bool) :=
  board.set bi ((board.getD bi []).set bj true)

/-- `merge_piece(board, piece, px, py)`: writes every occupied piece cell into
the board at the mapped position, guarded by `0 <= bx < WIDTH and 0 <= by < HEIGHT`
(Python mutates `board` in place; here a new board is returned). -/
def merge_piece (board piece : List (List Bool)) (px py : Int) : List (List Bool) :=
  (List.range piece.length).foldl
    (fun b y =>
      (List.range (piece.getD y []).length).foldl
        (fun b2 x =>
          if (piece.getD y []).getD x false = true ∧
              0 ≤ px + (x : Int) ∧ px + (x : Int) < 7 ∧
              0 ≤ py + (y : Int) ∧ py + (y : Int) < 12 then
            set_cell b2 (py + (y : Int)).toNat (px + (x : Int)).toNat
          else b2)
        b)
    board

/-- `clear_lines(board)`: drops every row with all cells filled
(`all(row)`, so an empty row also counts as full, exactly as in Python),
computes `lines_cleared = HEIGHT - len(new_board)` as a Python int, and
prepends that many empty width-7 rows (`range` of a negative is empty,
matched by `Int.toNat`). -/
def clear_lines (board : List (List Bool)) : List (List Bool) × Int :=
  let new_board := board.filter fun row => !row.all id
  let lines_cleared : Int := 12 - (new_board.length : Int)
  (List.replicate lines_cleared.toNat (List.replicate 7 false) ++ new_board, lines_cleared)

/-- The two shapes of the `PIECES` catalogue, `'I'` and `'L'`. -/
inductive PieceType where
  | I : PieceType
  | L : PieceType
deriving DecidableEq

/-- `PIECES = {'I': [[1,1,1]], 'L': [[1,1],[1,0]]}`. -/
def PIECES : PieceType → List (List Bool)
  | .I => [[true, true, true]]
  | .L => [[true, true], [true, false]]

/-- One spawn-time rotation step: the center-pivot rule for `'I'`,
the generic rule otherwise (the branch inside the spawn loops). -/
def rotate_for (t : PieceType) (p : List (List Bool)) : List (List Bool) :=
  match t with
  | .I => rotate_i_piece_center p
  | .L => rotate_piece p

/-- Apply `n` spawn rotations (`for _ in range(random.randint(0, 3))`). -/
def apply_rotations (t : PieceType) : Nat → List (List Bool) → List (List Bool)
  | 0, p => p
  | n + 1, p => apply_rotations t n (rotate_for t p)

/-- The freshly generated piece in `land_piece`/`spawn_piece`: the catalogue
shape of `t` after `rots` rotations (shape and rotation count are the two
random draws, passed in explicitly). -/
def next_piece_of (t : PieceType) (rots : Nat) : List (List Bool) :=
  apply_rotations t rots (PIECES t)

/-- The spawn anchor column `WIDTH // 2 - len(piece[0]) // 2`. -/
def spawn_px (piece : List (List Bool)) : Int :=
  ((7 / 2 : Nat) : Int) - (((piece.headD []).length / 2 : Nat) : Int)

/-- The game-session state of `TetrisGame` (the wall-clock `start_time` and
the presentation-layer `_logged` flag are omitted; randomness is passed to
the operations that draw it). -/
structure TetrisGame where
  board : List (List Bool)
  score : Int
  game_over : Bool
  lines_cleared_total : Int
  current_piece_type : PieceType
  piece : List (List Bool)
  px : Int
  py : Int
deriving DecidableEq

/-- The wall-kick loop shared by both rotation branches: try each offset in
order against the rotated piece; commit piece and anchor together at the
first non-colliding position, otherwise leave the game unchanged. -/
def tryKicks (g : TetrisGame) (rotated : List (List Bool)) (npx npy : Int) :
    List (Int × Int) → TetrisGame
  | [] => g
  | k :: ks =>
    if check_collision g.board rotated (npx + k.1) (npy + k.2) = true then
      tryKicks g rotated npx npy ks
    else
      { g with piece := rotated, px := npx + k.1, py := npy + k.2 }

/-- The `'I'`-branch recentering and kick table of `TetrisGame.rotate`:
horizontal→vertical shifts the anchor by `(+1, -1)`, vertical→horizontal
by `(-1, +1)`, the fallback keeps the anchor with the single kick `(0,0)`. -/
def iKickParams (g : TetrisGame) (rotated : List (List Bool)) :
    Int × Int × List (Int × Int) :=
  if g.piece.length = 1 ∧ rotated.length = 3 then
    (g.px + 1, g.py - 1, [(0, 0), (-1, 0), (1, 0), (0, -1), (0, 1), (-2, 0), (2, 0)])
  else if g.piece.length = 3 ∧ rotated.length = 1 then
    (g.px - 1, g.py + 1, [(0, 0), (-1, 0), (1, 0), (0, 1), (0, -1), (-2, 0), (2, 0)])
  else
    (g.px, g.py, [(0, 0)])

/-- The `'L'`-branch wall-kick table of `TetrisGame.rotate`. -/
def L_wall_kicks : List (Int × Int) :=
  [(0, 0), (-1, 0), (1, 0), (0, -1), (-1, -1), (1, -1)]

/-- `TetrisGame.rotate`: no-op when `game_over`; the `'I'` piece uses the
center-pivot rotation with recentering plus its kick table, other pieces try
the generic rotation in place first and then the `'L'` kick table. -/
def rotate (g : TetrisGame) : TetrisGame :=
  if g.game_over = true then g
  else
    match g.current_piece_type with
    | .I =>
      let rotated := rotate_i_piece_center g.piece
      let p := iKickParams g rotated
      tryKicks g rotated p.1 p.2.1 p.2.2
    | .L =>
      let rotated := rotate_piece g.piece
      if check_collision g.board rotated g.px g.py = true then
        tryKicks g rotated g.px g.py L_wall_kicks
      else
        { g with piece := rotated }

/-- The ordered list of candidate placements `(rotatedPiece, px, py)` that
`rotate` tries: for `'I'` the recentered position under each kick offset, for
`'L'` the unshifted position followed by the kick offsets. -/
def rotateCandidates (g : TetrisGame) : List (List (List Bool) × Int × Int) :=
  match g.current_piece_type with
  | .I =>
    let rotated := rotate_i_piece_center g.piece
    let p := iKickParams g rotated
    p.2.2.map fun k => (rotated, p.1 + k.1, p.2.1 + k.2)
  | .L =>
    let rotated := rotate_piece g.piece
    (rotated, g.px, g.py) :: L_wall_kicks.map fun k => (rotated, g.px + k.1, g.py + k.2)

/-- `TetrisGame.land_piece`: merge the active piece, clear full rows, award
`lines_cleared ** 2 * 100`, accumulate the lines counter, generate the next
piece (`t`, `rots` are the two random draws) at the centered spawn anchor,
and either flag game over (leaving the old piece fields in place) or install
the new piece. -/
def land_piece (g : TetrisGame) (t : PieceType) (rots : Nat) : TetrisGame :=
  let pr := clear_lines (merge_piece g.board g.piece g.px g.py)
  let g1 : TetrisGame :=
    { g with board := pr.1,
             lines_cleared_total := g.lines_cleared_total + pr.2,
             score := g.score + pr.2 ^ 2 * 100 }
  let np := next_piece_of t rots
  if check_collision g1.board np (spawn_px np) 0 = true then
    { g1 with game_over := true }
  else
    { g1 with current_piece_type := t, piece := np, px := spawn_px np, py := 0 }

/-- The `while not check_collision(...py + 1): py += 1; score += 2` loop of
`TetrisGame.hard_drop`, with explicit fuel (the caller supplies enough fuel;
`hard_drop_fuel_enough` shows it never runs out for a piece with at least one
occupied cell).  Returns the final `(py, score)`. -/
def hard_drop_fuel : Nat → List (List Bool) → List (List Bool) → Int → Int → Int → Int × Int
  | 0, _, _, _, py, score => (py, score)
  | fuel + 1, board, piece, px, py, score =>
    if check_collision board piece px (py + 1) = true then (py, score)
    else hard_drop_fuel fuel board piece px (py + 1) (score + 2)

/-- The `(py, score)` pair at the end of the `hard_drop` descent loop. -/
def hard_drop_result (g : TetrisGame) : Int × Int :=
  hard_drop_fuel (13 + (-g.py).toNat) g.board g.piece g.px g.py g.score

/-- `TetrisGame.hard_drop`: no-op when `game_over`, else run the descent loop
(2 points per row) and land, drawing the next piece from `t`, `rots`. -/
def hard_drop (g : TetrisGame) (t : PieceType) (rots : Nat) : TetrisGame :=
  if g.game_over = true then g
  else
    land_piece
      { g with py := (hard_drop_result g).1, score := (hard_drop_result g).2 } t rots

/-- One record of the `tris.log` score store (one JSON object per line).
Timestamps (ISO-8601 strings in the file, which compare chronologically)
are modelled as naturals. -/
structure ScoreEntry where
  username : String
  score : Int
  avatar_url : String
  user_id : Nat
  timestamp : Nat
  games_played : Int
  total_lines : Int
  total_time : Int
  best_lines : Int
  best_time : Int
  best_lines_timestamp : Nat
  best_time_timestamp : Nat
deriving DecidableEq

/-- The arguments of one `save_score` call (with `now` standing for the
`datetime.now()` reads performed during the call). -/
structure SaveCall where
  username : String
  score : Int
  avatar_url : String
  lines_cleared : Int
  game_time : Int
  now : Nat
deriving DecidableEq

/-- The fresh record appended by `save_score` when the player id is absent. -/
def new_entry (user_id : Nat) (c : SaveCall) : ScoreEntry :=
  { username := c.username, score := c.score, avatar_url := c.avatar_url,
    user_id := user_id, timestamp := c.now, games_played := 1,
    total_lines := c.lines_cleared, total_time := c.game_time,
    best_lines := c.lines_cleared, best_time := c.game_time,
    best_lines_timestamp := c.now, best_time_timestamp := c.now }

/-- The in-place update `save_score` applies to an existing record: bump the
three cumulative counters, refresh name/avatar, then update each of the three
best-value/timestamp pairs independently. -/
def update_entry (e : ScoreEntry) (c : SaveCall) : ScoreEntry :=
  let e1 := { e with games_played := e.games_played + 1,
                     total_lines := e.total_lines + c.lines_cleared,
                     total_time := e.total_time + c.game_time,
                     username := c.username, avatar_url := c.avatar_url }
  let e2 := if c.score > e1.score then
      { e1 with score := c.score, timestamp := c.now } else e1
  let e3 := if c.lines_cleared > e2.best_lines then
      { e2 with best_lines := c.lines_cleared, best_lines_timestamp := c.now } else e2
  if c.game_time > e3.best_time then
    { e3 with best_time := c.game_time, best_time_timestamp := c.now } else e3

/-- `save_score`: update the first record whose `user_id` matches, else
append a fresh record at the end (Python's `for ... break / else` over the
loaded list, followed by a full rewrite of the file). -/
def save_score (user_id : Nat) (c : SaveCall) : List ScoreEntry → List ScoreEntry
  | [] => [new_entry user_id c]
  | e :: es =>
    if e.user_id = user_id then update_entry e c :: es
    else e :: save_score user_id c es

/-- A sequence of `save_score` calls for one player, applied in order. -/
def run_saves (user_id : Nat) (scores : List ScoreEntry) : List SaveCall → List ScoreEntry
  | [] => scores
  | c :: cs => run_saves user_id (save_score user_id c scores) cs

/-- The stored record of a player: the first list entry with that `user_id`
(the store keeps at most one per player, and both the updater and the reader
in `tris.py` take the first match). -/
def lookupScore (user_id : Nat) : List ScoreEntry → Option ScoreEntry
  | [] => none
  | e :: es => if e.user_id = user_id then some e else lookupScore user_id es

/-- The `get_highscores` sort key comparison: ascending in
`(-entry.score, entry.timestamp)`, as in `key=lambda x: (-x["score"], x["timestamp"])`. -/
def score_key_le (a b : ScoreEntry) : Bool :=
  decide (-a.score < -b.score) ||
    (decide (-a.score = -b.score) && decide (a.timestamp ≤ b.timestamp))

/-- `get_highscores(limit)`: stable-sort the stored records by the score key
and truncate to `limit`. -/
def get_highscores (scores : List ScoreEntry) (limit : Nat) : List ScoreEntry :=
  (scores.mergeSort score_key_le).take limit

/-- The leaderboard order of the specification: strictly descending score, or
equal scores with non-decreasing best-score timestamp. -/
def hsRel (a b : ScoreEntry) : Prop :=
  b.score < a.score ∨ (a.score = b.score ∧ a.timestamp ≤ b.timestamp)

/-- A bounds-checked read of `board[bi][bj]`: `none` when the indices fall
outside the board actually passed in (negative, past the row count, or past
that row's width), otherwise the cell value. -/
def readCellOpt (board : List (List Bool)) (bi bj : Int) : Option Bool :=
  if 0 ≤ bi ∧ bi.toNat < board.length then
    if 0 ≤ bj ∧ bj.toNat < (board.getD bi.toNat []).length then
      some ((board.getD bi.toNat []).getD bj.toNat false)
    else none
  else none

/-- Short-circuiting `any` over `Option Bool`: stops at the first `true`
(as the Python `return True` does) and propagates a failed read as `none`. -/
def anyOpt (f : Nat → Option Bool) : List Nat → Option Bool
  | [] => some false
  | i :: is =>
    match f i with
    | none => none
    | some true => some true
    | some false => anyOpt f is

/-- `check_collision` with every board access replaced by the bounds-checked
`readCellOpt`, mirroring the cell-by-cell control flow of the Python code:
out-of-bounds test first, then the `by >= 0` guard, then the board read. -/
def check_collision_checked (board piece : List (List Bool)) (px py : Int) : Option Bool :=
  anyOpt
    (fun y =>
      anyOpt
        (fun x =>
          if (piece.getD y []).getD x false = true then
            if px + (x : Int) < 0 ∨ 7 ≤ px + (x : Int) ∨ 12 ≤ py + (y : Int) then some true
            else if 0 ≤ py + (y : Int) then
              readCellOpt board (py + (y : Int)) (px + (x : Int))
            else some false
          else some false)
        (List.range (piece.getD y []).length))
    (List.range piece.length)

/-- A session state used to instantiate the theorems: empty board, the
horizontal bar at the spawn anchor `(2, 0)`. -/
def exampleGame : TetrisGame :=
  { board := empty_board, score := 0, game_over := false, lines_cleared_total := 0,
    current_piece_type := .I, piece := [[true, true, true]], px := 2, py := 0 }

/-- A board that is completely filled except for the cells `(11, 2..4)`. -/
def blockedBoard : List (List Bool) :=
  List.replicate 11 (List.replicate 7 true) ++
    [[true, true, false, false, false, true, true]]

/-- A session whose horizontal bar sits in the only free cells of
`blockedBoard`: every rotation candidate collides. -/
def blockedGame : TetrisGame :=
  { board := blockedBoard, score := 5, game_over := false, lines_cleared_total := 3,
    current_piece_type := .I, piece := [[true, true, true]], px := 2, py := 11 }

/-- A 12-row board whose bottom row is full and all other rows are empty. -/
def fullRowBoard : List (List Bool) :=
  List.replicate 11 (List.replicate 7 false) ++ [List.replicate 7 true]

/-- A first example `save_score` call (score 100, 2 lines, 30 s, at time 1000). -/
def exampleCall1 : SaveCall :=
  { username := "a", score := 100, avatar_url := "", lines_cleared := 2,
    game_time := 30, now := 1000 }

/-- A second example call: lower score but more lines (50, 5 lines, 10 s, 2000). -/
def exampleCall2 : SaveCall :=
  { username := "a", score := 50, avatar_url := "", lines_cleared := 5,
    game_time := 10, now := 2000 }

/-- The record stored for player 7 after `exampleCall1` on an empty store. -/
def exampleEntry1 : ScoreEntry := new_entry 7 exampleCall1

/-- The record stored for player 7 after `exampleCall2` follows. -/
def exampleEntry2 : ScoreEntry := update_entry exampleEntry1 exampleCall2

/-- Auxiliary characterisation of `check_collision` used by the claims. -/
theorem check_collision_eq_true_iff (board piece : List (List Bool)) (px py : Int) :
    check_collision board piece px py = true ↔
      ∃ y, y < piece.length ∧ ∃ x, x < (piece.getD y []).length ∧
        (piece.getD y []).getD x false = true ∧
        (px + (x : Int) < 0 ∨ 7 ≤ px + (x : Int) ∨ 12 ≤ py + (y : Int) ∨
          (0 ≤ py + (y : Int) ∧ py + (y : Int) < 12 ∧
            boardCell board (py + (y : Int)) (px + (x : Int)) = true)) := by
  simp only [check_collision, List.any_eq_true, List.mem_range, Bool.and_eq_true,
    Bool.or_eq_true, decide_eq_true_eq]
  constructor
  · rintro ⟨y, hy, x, hx, hc, hcond⟩
    refine ⟨y, hy, x, hx, hc, ?_⟩
    rcases hcond with ((h | h) | h) | ⟨h1, h2⟩
    · exact Or.inl h
    · exact Or.inr (Or.inl h)
    · exact Or.inr (Or.inr (Or.inl h))
    · by_cases h12 : py + (y : Int) < 12
      · exact Or.inr (Or.inr (Or.inr ⟨h1, h12, h2⟩))
      · exact Or.inr (Or.inr (Or.inl (by omega)))
  · rintro ⟨y, hy, x, hx, hc, hcond⟩
    refine ⟨y, hy, x, hx, hc, ?_⟩
    rcases hcond with h | h | h | ⟨h1, h2, h3⟩
    · exact Or.inl (Or.inl (Or.inl h))
    · exact Or.inl (Or.inl (Or.inr h))
    · exact Or.inl (Or.inr h)
    · exact Or.inr ⟨h1, h3⟩

theorem anyOpt_eq_any (f : Nat → Option Bool) (g : Nat → Bool) :
    ∀ l : List Nat, (∀ i ∈ l, f i = some (g i)) → anyOpt f l = some (l.any g) := by
  intro l
  induction l with
  | nil => intro _; rfl
  | cons i is ih =>
    intro h
    have hi := h i (List.mem_cons_self _ _)
    have ht := ih fun j hj => h j (List.mem_cons_of_mem _ hj)
    cases hg : g i with
    | true => simp [anyOpt, hi, hg, List.any_cons]
    | false => simp [anyOpt, hi, hg, List.any_cons, ht]

/-- C1: `check_collision(board, piece, px, py)` returns true if and only if
some occupied piece cell maps to a board column `< 0` or `≥ 7`, or to a board
row `≥ 12`, or to a board row in `[0, 12)` whose cell is already filled; an
occupied cell whose mapped row is `< 0` is not out of bounds by itself. -/
theorem check_collision_spec (board piece : List (List Bool)) (px py : Int) :
    check_collision board piece px py = true ↔
      ∃ y, y < piece.length ∧ ∃ x, x < (piece.getD y []).length ∧
        (piece.getD y []).getD x false = true ∧
        (px + (x : Int) < 0 ∨ 7 ≤ px + (x : Int) ∨ 12 ≤ py + (y : Int) ∨
          (0 ≤ py + (y : Int) ∧ py + (y : Int) < 12 ∧
            boardCell board (py + (y : Int)) (px + (x : Int)) = true)) :=
  check_collision_eq_true_iff board piece px py

/-- C10: on a 12-row board whose rows all have 7 cells, `check_collision` is
total and never reads the board out of bounds: the bounds-checked evaluation
succeeds for every piece and every integer anchor, and agrees with
`check_collision`. -/
theorem check_collision_no_oob_read (board : List (List Bool))
    (h12 : board.length = 12) (h7 : ∀ r ∈ board, r.length = 7)
    (piece : List (List Bool)) (px py : Int) :
    check_collision_checked board piece px py =
      some (check_collision board piece px py) := by
  unfold check_collision_checked check_collision
  apply anyOpt_eq_any
  intro y _
  apply anyOpt_eq_any
  intro x _
  by_cases hc : (piece.getD y []).getD x false = true
  · rw [if_pos hc, hc, Bool.true_and]
    by_cases hA : px + (x : Int) < 0 ∨ 7 ≤ px + (x : Int) ∨ 12 ≤ py + (y : Int)
    · rw [if_pos hA]
      have : (decide (px + (x : Int) < 0) || decide (7 ≤ px + (x : Int)) ||
          decide (12 ≤ py + (y : Int)) ||
          (decide (0 ≤ py + (y : Int)) &&
            boardCell board (py + (y : Int)) (px + (x : Int)))) = true := by
        simp only [Bool.or_eq_true, Bool.and_eq_true, decide_eq_true_eq]
        tauto
      rw [this]
    · rw [if_neg hA]
      push_neg at hA
      obtain ⟨h1, h2, h3⟩ := hA
      have e1 : decide (px + (x : Int) < 0) = false := by simp; omega
      have e2 : decide (7 ≤ px + (x : Int)) = false := by simp; omega
      have e3 : decide (12 ≤ py + (y : Int)) = false := by simp; omega
      by_cases hB : 0 ≤ py + (y : Int)
      · rw [if_pos hB]
        have e4 : decide (0 ≤ py + (y : Int)) = true := by simp [hB]
        rw [e1, e2, e3, e4]
        have hbi : 0 ≤ py + (y : Int) ∧ (py + (y : Int)).toNat < board.length := by
          constructor
          · exact hB
          · omega
        have hrow : board.getD (py + (y : Int)).toNat [] ∈ board := by
          rw [List.getD_eq_getElem board [] hbi.2]
          exact List.getElem_mem hbi.2
        have hlen : (board.getD (py + (y : Int)).toNat []).length = 7 := h7 _ hrow
        have hbj : 0 ≤ px + (x : Int) ∧
            (px + (x : Int)).toNat < (board.getD (py + (y : Int)).toNat []).length := by
          constructor
          · omega
          · omega
        rw [readCellOpt, if_pos hbi, if_pos hbj]
        simp [boardCell]
      · rw [if_neg hB]
        have e4 : decide (0 ≤ py + (y : Int)) = false := by simp [hB]
        rw [e1, e2, e3, e4]
        simp
  · rw [if_neg hc]
    have : (piece.getD y []).getD x false = false := by
      cases h : (piece.getD y []).getD x false
      · rfl
      · exact absurd h hc
    rw [this, Bool.false_and]

/-- Witness for C10 at the empty board and the horizontal bar. -/
theorem check_collision_no_oob_read_witness :
    empty_board.length = 12 ∧
      check_collision_checked empty_board [[true, true, true]] 2 0 =
        some (check_collision empty_board [[true, true, true]] 2 0) :=
  ⟨by decide,
    check_collision_no_oob_read empty_board (by decide) (by decide)
      [[true, true, true]] 2 0⟩

/-- C9: the center-pivot bar rotation swaps the horizontal 1×3 and vertical
3×1 occupancy matrices, hence is an involution on the bar's two orientations,
and returns any matrix of other dimensions unchanged. -/
theorem rotate_i_piece_center_spec (p : List (List Bool))
    (h1 : ¬(p.length = 1 ∧ (p.headD []).length = 3))
    (h2 : ¬(p.length = 3 ∧ (p.headD []).length = 1)) :
    rotate_i_piece_center [[true, true, true]] = [[true], [true], [true]] ∧
    rotate_i_piece_center [[true], [true], [true]] = [[true, true, true]] ∧
    rotate_i_piece_center (rotate_i_piece_center [[true, true, true]]) =
      [[true, true, true]] ∧
    rotate_i_piece_center (rotate_i_piece_center [[true], [true], [true]]) =
      [[true], [true], [true]] ∧
    rotate_i_piece_center p = p := by
  refine ⟨by decide, by decide, by decide, by decide, ?_⟩
  unfold rotate_i_piece_center
  rw [if_neg h1, if_neg h2]

/-- Witness for C9 at the 2×2 corner piece matrix. -/
theorem rotate_i_piece_center_spec_witness :
    rotate_i_piece_center [[true, true], [true, false]] = [[true, true], [true, false]] :=
  (rotate_i_piece_center_spec [[true, true], [true, false]] (by decide) (by decide)).2.2.2.2

theorem length_filter_not_all (l : List (List Bool)) :
    (l.filter fun r => r.all id).length + (l.filter fun r => !r.all id).length
      = l.length := by
  induction l with
  | nil => rfl
  | cons r rs ih =>
    cases h : r.all id <;> simp [List.filter_cons, h] <;> omega

/-- C5: on a 12-row board, `clear_lines` drops exactly the full rows
(keeping the rest in order), prepends that many empty rows so the board stays
12 rows tall, returns the number of full rows as the cleared count, and on a
board with no full row returns the board unchanged with count 0. -/
theorem clear_lines_spec (board : List (List Bool)) (h : board.length = 12) :
    (clear_lines board).2 = ((board.filter fun r => r.all id).length : Int) ∧
    (clear_lines board).1 =
      List.replicate (board.filter fun r => r.all id).length (List.replicate 7 false) ++
        board.filter (fun r => !r.all id) ∧
    (clear_lines board).1.length = 12 ∧
    ((board.filter fun r => r.all id) = [] → clear_lines board = (board, 0)) := by
  have hle : (board.filter fun r => !r.all id).length ≤ board.length :=
    List.length_filter_le _ _
  have hpart := length_filter_not_all board
  have hcnt : ((12 : Int) - ((board.filter fun r => !r.all id).length : Int)).toNat
      = (board.filter fun r => r.all id).length := by omega
  refine ⟨?_, ?_, ?_, ?_⟩
  · simp only [clear_lines]
    omega
  · simp only [clear_lines, hcnt]
  · simp only [clear_lines, List.length_append, List.length_replicate, hcnt]
    omega
  · intro h0
    have hall : ∀ r ∈ board, r.all id = false := by
      intro r hr
      have := (List.filter_eq_nil_iff.mp h0) r hr
      cases hv : r.all id
      · rfl
      · exact absurd hv this
    have hself : board.filter (fun r => !r.all id) = board :=
      List.filter_eq_self.mpr fun a ha => by simp [hall a ha]
    simp [clear_lines, hself, h]

/-- Witness for C5 at the board whose bottom row is the only full one. -/
theorem clear_lines_spec_witness :
    fullRowBoard.length = 12 ∧
      (clear_lines fullRowBoard).2 =
        ((fullRowBoard.filter fun r => r.all id).length : Int) ∧
      (clear_lines fullRowBoard).1.length = 12 :=
  ⟨by decide, (clear_lines_spec fullRowBoard (by decide)).1,
    (clear_lines_spec fullRowBoard (by decide)).2.2.1⟩

/-- C4: a landing that clears `k` full rows adds exactly `k² · 100` points to
the score and exactly `k` to the cumulative lines-cleared counter (so 0, 100,
400, 900, 1600 points for k = 0..4). -/
theorem land_piece_score_law (g : TetrisGame) (t : PieceType) (rots : Nat) :
    (land_piece g t rots).score =
      g.score + (clear_lines (merge_piece g.board g.piece g.px g.py)).2 ^ 2 * 100 ∧
    (land_piece g t rots).lines_cleared_total =
      g.lines_cleared_total + (clear_lines (merge_piece g.board g.piece g.px g.py)).2 := by
  simp only [land_piece]
  split <;> simp

/-- C3: after a landing of a non-terminal session, the session is terminal
exactly when the freshly generated piece (shape `t`, `rots` rotations,
anchored at the centered spawn column, row 0) collides on the post-clear
board; in that case the colliding piece is not installed — the active piece
fields are unchanged. -/
theorem land_piece_terminal_iff (g : TetrisGame) (t : PieceType) (rots : Nat)
    (hgo : g.game_over = false) :
    ((land_piece g t rots).game_over = true ↔
      check_collision (clear_lines (merge_piece g.board g.piece g.px g.py)).1
        (next_piece_of t rots) (spawn_px (next_piece_of t rots)) 0 = true) ∧
    (check_collision (clear_lines (merge_piece g.board g.piece g.px g.py)).1
        (next_piece_of t rots) (spawn_px (next_piece_of t rots)) 0 = true →
      (land_piece g t rots).piece = g.piece ∧
      (land_piece g t rots).current_piece_type = g.current_piece_type ∧
      (land_piece g t rots).px = g.px ∧ (land_piece g t rots).py = g.py) := by
  simp only [land_piece]
  split <;> rename_i hcoll <;> simp_all

/-- Witness for C3: landing the bar of `exampleGame` at the spawn row leaves
the spawn area blocked, so the session becomes terminal. -/
theorem land_piece_terminal_iff_witness :
    exampleGame.game_over = false ∧
      ((land_piece exampleGame .I 0).game_over = true ↔
        check_collision
          (clear_lines (merge_piece exampleGame.board exampleGame.piece
            exampleGame.px exampleGame.py)).1
          (next_piece_of .I 0) (spawn_px (next_piece_of .I 0)) 0 = true) :=
  ⟨rfl, (land_piece_terminal_iff exampleGame .I 0 rfl).1⟩

theorem tryKicks_eq_of_all_collide (g : TetrisGame) (rotated : List (List Bool))
    (npx npy : Int) : ∀ ks : List (Int × Int),
    (∀ k ∈ ks, check_collision g.board rotated (npx + k.1) (npy + k.2) = true) →
      tryKicks g rotated npx npy ks = g := by
  intro ks
  induction ks with
  | nil => intro _; rfl
  | cons k ks ih =>
    intro h
    simp only [tryKicks]
    rw [if_pos (h k (List.mem_cons_self _ _))]
    exact ih fun j hj => h j (List.mem_cons_of_mem _ hj)

theorem tryKicks_safe (g : TetrisGame) (rotated : List (List Bool)) (npx npy : Int)
    (hsafe : check_collision g.board g.piece g.px g.py = false) :
    ∀ ks : List (Int × Int),
      check_collision (tryKicks g rotated npx npy ks).board
        (tryKicks g rotated npx npy ks).piece (tryKicks g rotated npx npy ks).px
        (tryKicks g rotated npx npy ks).py = false := by
  intro ks
  induction ks with
  | nil => simpa [tryKicks] using hsafe
  | cons k ks ih =>
    by_cases hc : check_collision g.board rotated (npx + k.1) (npy + k.2) = true
    · simpa [tryKicks, hc] using ih
    · simp only [Bool.not_eq_true] at hc
      simp [tryKicks, hc]

/-- C2: rotating a non-terminal session that is currently in a legal
position never leaves it colliding, and if every candidate placement (the
recentered/unshifted position and every wall-kick offset) collides, the
session — in particular piece matrix, anchor and score — is exactly
unchanged. -/
theorem rotate_spec (g : TetrisGame) (hgo : g.game_over = false)
    (hsafe : check_collision g.board g.piece g.px g.py = false) :
    check_collision (rotate g).board (rotate g).piece (rotate g).px
      (rotate g).py = false ∧
    ((∀ c ∈ rotateCandidates g, check_collision g.board c.1 c.2.1 c.2.2 = true) →
      rotate g = g) := by
  constructor
  · rw [rotate, if_neg (by simp [hgo])]
    rcases htype : g.current_piece_type
    · simp only [htype]
      exact tryKicks_safe g _ _ _ hsafe _
    · simp only [htype]
      by_cases hb : check_collision g.board (rotate_piece g.piece) g.px g.py = true
      · simpa only [hb, if_true] using tryKicks_safe g _ _ _ hsafe _
      · simp only [Bool.not_eq_true] at hb
        simp [hb]
  · intro hall
    rw [rotate, if_neg (by simp [hgo])]
    rcases htype : g.current_piece_type
    · simp only [htype]
      apply tryKicks_eq_of_all_collide
      intro k hk
      have hmem : (rotate_i_piece_center g.piece,
          (iKickParams g (rotate_i_piece_center g.piece)).1 + k.1,
          (iKickParams g (rotate_i_piece_center g.piece)).2.1 + k.2) ∈
            rotateCandidates g := by
        simp only [rotateCandidates, htype]
        exact List.mem_map_of_mem _ hk
      exact hall _ hmem
    · simp only [htype]
      have hhead : (rotate_piece g.piece, g.px, g.py) ∈ rotateCandidates g := by
        simp only [rotateCandidates, htype]
        exact List.mem_cons_self _ _
      have hb := hall _ hhead
      rw [if_pos hb]
      apply tryKicks_eq_of_all_collide
      intro k hk
      have hmem : (rotate_piece g.piece, g.px + k.1, g.py + k.2) ∈
          rotateCandidates g := by
        simp only [rotateCandidates, htype]
        exact List.mem_cons_of_mem _ (List.mem_map_of_mem _ hk)
      exact hall _ hmem

/-- Witness for C2: in `blockedGame` every rotation candidate collides and
`rotate` leaves the session byte-for-byte unchanged. -/
theorem rotate_spec_witness :
    blockedGame.game_over = false ∧
      check_collision blockedGame.board blockedGame.piece blockedGame.px
        blockedGame.py = false ∧
      rotate blockedGame = blockedGame :=
  ⟨rfl, by decide, (rotate_spec blockedGame rfl (by decide)).2 (by decide)⟩

theorem collide_of_ge_12 (board piece : List (List Bool)) (px j : Int)
    (hocc : piece.any (fun r => r.any id) = true) (hj : 12 ≤ j) :
    check_collision board piece px j = true := by
  rw [check_collision_eq_true_iff]
  rw [List.any_eq_true] at hocc
  obtain ⟨row, hrow, hrowany⟩ := hocc
  rw [List.any_eq_true] at hrowany
  obtain ⟨c, hc, hcid⟩ := hrowany
  obtain ⟨y, hy, hyeq⟩ := List.mem_iff_getElem.mp hrow
  obtain ⟨x, hx, hxeq⟩ := List.mem_iff_getElem.mp hc
  have hgetrow : piece.getD y [] = row := by
    rw [List.getD_eq_getElem piece [] hy, hyeq]
  refine ⟨y, hy, x, ?_, ?_, ?_⟩
  · rw [hgetrow]; exact hx
  · rw [hgetrow, List.getD_eq_getElem row false hx, hxeq]
    exact hcid
  · refine Or.inr (Or.inr (Or.inl ?_))
    omega

theorem hard_drop_fuel_spec (board piece : List (List Bool)) (px : Int) :
    ∀ (fuel : Nat) (py score : Int),
      py ≤ (hard_drop_fuel fuel board piece px py score).1 ∧
      (hard_drop_fuel fuel board piece px py score).2 =
        score + 2 * ((hard_drop_fuel fuel board piece px py score).1 - py) ∧
      (∀ j : Int, py < j → j ≤ (hard_drop_fuel fuel board piece px py score).1 →
        check_collision board piece px j = false) ∧
      (check_collision board piece px
          ((hard_drop_fuel fuel board piece px py score).1 + 1) = true ∨
        (hard_drop_fuel fuel board piece px py score).1 = py + fuel) := by
  intro fuel
  induction fuel with
  | zero =>
    intro py score
    refine ⟨le_refl _, by simp [hard_drop_fuel], ?_, Or.inr (by simp [hard_drop_fuel])⟩
    intro j h1 h2
    simp only [hard_drop_fuel] at h2
    omega
  | succ fuel ih =>
    intro py score
    by_cases hc : check_collision board piece px (py + 1) = true
    · simp only [hard_drop_fuel, if_pos hc]
      refine ⟨le_refl _, by omega, ?_, Or.inl hc⟩
      intro j h1 h2
      omega
    · simp only [hard_drop_fuel, if_neg hc]
      obtain ⟨h1, h2, h3, h4⟩ := ih (py + 1) (score + 2)
      simp only [Bool.not_eq_true] at hc
      refine ⟨by omega, by omega, ?_, ?_⟩
      · intro j hj1 hj2
        rcases eq_or_lt_of_le (show py + 1 ≤ j by omega) with h | h
        · rw [← h]; exact hc
        · exact h3 j h hj2
      · rcases h4 with h | h
        · exact Or.inl h
        · exact Or.inr (by omega)

/-- C6: on a non-terminal session whose piece has at least one occupied
cell, the hard-drop loop only moves the anchor through non-colliding rows,
comes to rest directly above a colliding row, pays exactly `2·(r' − r)`
points for a descent from row `r` to row `r'`, and `hard_drop` then invokes
the landing on the descended state. -/
theorem hard_drop_spec (g : TetrisGame) (t : PieceType) (rots : Nat)
    (hgo : g.game_over = false)
    (hocc : g.piece.any (fun r => r.any id) = true) :
    g.py ≤ (hard_drop_result g).1 ∧
    (hard_drop_result g).2 = g.score + 2 * ((hard_drop_result g).1 - g.py) ∧
    (∀ j : Int, g.py < j → j ≤ (hard_drop_result g).1 →
      check_collision g.board g.piece g.px j = false) ∧
    check_collision g.board g.piece g.px ((hard_drop_result g).1 + 1) = true ∧
    hard_drop g t rots =
      land_piece { g with py := (hard_drop_result g).1,
                          score := (hard_drop_result g).2 } t rots := by
  obtain ⟨h1, h2, h3, h4⟩ :=
    hard_drop_fuel_spec g.board g.piece g.px (13 + (-g.py).toNat) g.py g.score
  simp only [hard_drop_result]
  refine ⟨h1, h2, h3, ?_, ?_⟩
  · rcases h4 with h | h
    · exact h
    · exact collide_of_ge_12 g.board g.piece g.px _ hocc (by omega)
  · rw [hard_drop, if_neg (by simp [hgo])]
    rfl

/-- Witness for C6: hard-dropping the bar of `exampleGame` descends from row
0 to row 11, paying 22 points, and then lands. -/
theorem hard_drop_spec_witness :
    exampleGame.game_over = false ∧
      (hard_drop_result exampleGame).2 =
        exampleGame.score + 2 * ((hard_drop_result exampleGame).1 - exampleGame.py) ∧
      check_collision exampleGame.board exampleGame.piece exampleGame.px
        ((hard_drop_result exampleGame).1 + 1) = true ∧
      hard_drop exampleGame .I 0 =
        land_piece { exampleGame with py := (hard_drop_result exampleGame).1,
                                      score := (hard_drop_result exampleGame).2 } .I 0 :=
  ⟨rfl, (hard_drop_spec exampleGame .I 0 rfl (by decide)).2.1,
    (hard_drop_spec exampleGame .I 0 rfl (by decide)).2.2.2.1,
    (hard_drop_spec exampleGame .I 0 rfl (by decide)).2.2.2.2⟩

theorem update_entry_user_id (e : ScoreEntry) (c : SaveCall) :
    (update_entry e c).user_id = e.user_id := by
  simp only [update_entry]
  split_ifs <;> rfl

theorem update_entry_mono (e : ScoreEntry) (c : SaveCall) :
    e.score ≤ (update_entry e c).score ∧
    e.best_lines ≤ (update_entry e c).best_lines ∧
    e.best_time ≤ (update_entry e c).best_time ∧
    (update_entry e c).games_played = e.games_played + 1 := by
  simp only [update_entry]
  split_ifs <;> (simp_all; try omega)

theorem lookup_save_score (uid : Nat) (c : SaveCall) : ∀ s : List ScoreEntry,
    lookupScore uid (save_score uid c s) =
      some ((lookupScore uid s).elim (new_entry uid c) fun e => update_entry e c) := by
  intro s
  induction s with
  | nil => simp [save_score, lookupScore, new_entry]
  | cons e es ih =>
    by_cases he : e.user_id = uid
    · simp [save_score, lookupScore, he, update_entry_user_id]
    · simp [save_score, lookupScore, he, ih]

theorem run_saves_mono (uid : Nat) :
    ∀ (cs : List SaveCall) (s : List ScoreEntry) (e : ScoreEntry),
      lookupScore uid s = some e →
      ∃ e2, lookupScore uid (run_saves uid s cs) = some e2 ∧
        e.score ≤ e2.score ∧ e.best_lines ≤ e2.best_lines ∧
        e.best_time ≤ e2.best_time ∧
        e2.games_played = e.games_played + (cs.length : Int) := by
  intro cs
  induction cs with
  | nil =>
    intro s e h
    exact ⟨e, h, le_refl _, le_refl _, le_refl _, by simp⟩
  | cons c cs ih =>
    intro s e h
    have hl := lookup_save_score uid c s
    rw [h] at hl
    simp only [Option.elim] at hl
    obtain ⟨e2, he2, m1, m2, m3, m4⟩ := ih (save_score uid c s) (update_entry e c) hl
    obtain ⟨u1, u2, u3, u4⟩ := update_entry_mono e c
    refine ⟨e2, ?_, by omega, by omega, by omega, ?_⟩
    · simpa [run_saves] using he2
    · simp only [List.length_cons]
      omega

/-- C7: starting from a store with no record for the player, after a
non-empty sequence of `save_score` calls followed by any further sequence,
the stored best score, best lines and best time never decrease, and the
stored games-played counter equals the number of calls made. -/
theorem save_score_monotonic (uid : Nat) (s₀ : List ScoreEntry)
    (calls₁ calls₂ : List SaveCall) (e₁ e₂ : ScoreEntry)
    (h0 : lookupScore uid s₀ = none) (hne : calls₁ ≠ [])
    (h₁ : lookupScore uid (run_saves uid s₀ calls₁) = some e₁)
    (h₂ : lookupScore uid (run_saves uid (run_saves uid s₀ calls₁) calls₂) = some e₂) :
    e₁.score ≤ e₂.score ∧ e₁.best_lines ≤ e₂.best_lines ∧
    e₁.best_time ≤ e₂.best_time ∧
    e₁.games_played = (calls₁.length : Int) ∧
    e₂.games_played = (calls₁.length : Int) + (calls₂.length : Int) := by
  obtain ⟨c, cs, rfl⟩ := List.exists_cons_of_ne_nil hne
  have hrw : run_saves uid s₀ (c :: cs) = run_saves uid (save_score uid c s₀) cs := rfl
  rw [hrw] at h₁ h₂
  have hl := lookup_save_score uid c s₀
  rw [h0] at hl
  simp only [Option.elim] at hl
  obtain ⟨f1, hf1, a1, a2, a3, a4⟩ := run_saves_mono uid cs (save_score uid c s₀) _ hl
  rw [h₁] at hf1
  obtain rfl : e₁ = f1 := Option.some.inj hf1
  obtain ⟨f2, hf2, b1, b2, b3, b4⟩ := run_saves_mono uid calls₂ _ _ h₁
  rw [h₂] at hf2
  obtain rfl : e₂ = f2 := Option.some.inj hf2
  have hg : (new_entry uid c).games_played = 1 := rfl
  rw [hg] at a4
  refine ⟨b1, b2, b3, ?_, ?_⟩
  · simp only [List.length_cons]
    omega
  · simp only [List.length_cons]
    omega

/-- Witness for C7: two calls for player 7 on an empty store — the second has
a lower score but a new lines best; the bests never decrease and the games
counter counts both calls. -/
theorem save_score_monotonic_witness :
    lookupScore 7 (run_saves 7 [] [exampleCall1]) = some exampleEntry1 ∧
      exampleEntry1.score ≤ exampleEntry2.score ∧
      exampleEntry1.best_lines ≤ exampleEntry2.best_lines ∧
      exampleEntry1.best_time ≤ exampleEntry2.best_time ∧
      exampleEntry1.games_played = (([exampleCall1] : List SaveCall).length : Int) ∧
      exampleEntry2.games_played =
        (([exampleCall1] : List SaveCall).length : Int) +
          (([exampleCall2] : List SaveCall).length : Int) := by
  have h := save_score_monotonic 7 [] [exampleCall1] [exampleCall2]
    exampleEntry1 exampleEntry2 rfl (by decide) (by decide) (by decide)
  exact ⟨by decide, h.1, h.2.1, h.2.2.1, h.2.2.2.1, h.2.2.2.2⟩

theorem score_key_le_trans :
    ∀ a b c : ScoreEntry, score_key_le a b → score_key_le b c → score_key_le a c := by
  intro a b c h1 h2
  simp only [score_key_le, Bool.or_eq_true, Bool.and_eq_true, decide_eq_true_eq] at h1 h2 ⊢
  omega

theorem score_key_le_total :
    ∀ a b : ScoreEntry, score_key_le a b || score_key_le b a := by
  intro a b
  simp only [score_key_le, Bool.or_eq_true, Bool.and_eq_true, decide_eq_true_eq]
  omega

/-- C8: `get_highscores` returns records ordered by strictly descending best
score with ties broken by ascending best-score timestamp, truncated to at
most `limit` records, drawn from a permutation of the stored records. -/
theorem get_highscores_spec (scores : List ScoreEntry) (limit : Nat) :
    List.Pairwise hsRel (get_highscores scores limit) ∧
    (get_highscores scores limit).length ≤ limit ∧
    List.Sublist (get_highscores scores limit) (scores.mergeSort score_key_le) ∧
    List.Perm (scores.mergeSort score_key_le) scores := by
  refine ⟨?_, ?_, ?_, ?_⟩
  · have hs := List.sorted_mergeSort score_key_le_trans score_key_le_total scores
    have hp := hs.sublist (List.take_sublist limit (scores.mergeSort score_key_le))
    refine hp.imp ?_
    intro a b h
    simp only [score_key_le, Bool.or_eq_true, Bool.and_eq_true, decide_eq_true_eq] at h
    simp only [hsRel]
    omega
  · rw [get_highscores, List.length_take]
    omega
  · exact List.take_sublist _ _
  · exact List.mergeSort_perm _ _

end Tris
